import Mathlib

/-!
Shallow embedding of dictalchemy (src/dictalchemy/utils.py) and proofs about
its `asdict` / `fromdict` conversion layer.

Modelling conventions:
* SQLAlchemy mapper metadata becomes `ModelClass` (an ordered list of mapper
  properties plus the five `dictalchemy_*` class attributes).
* A Python value is a `PyVal` tree; a mapped instance is `PyVal.vobj cls
  dictable attrs` where `attrs` is the instance `__dict__` restricted to the
  attribute names the code touches, and `dictable` records whether
  `make_class_dictable` has attached `asdict` / `fromdict` / `__iter__` to the
  class (those three are always attached together, so a single flag models
  `hasattr(rel, 'asdict')` as well as the availability of `fromdict`).
* Python dicts are association lists with first-occurrence lookup and
  replace-in-place insertion (`alistGet` / `alistSet`); `dict(pairs)` is a left
  fold of insertions, which preserves first-insertion key positions exactly as
  needed for the iteration-order facts proved below.
* Exceptions are values of `PyErr`; `fromdict` mutates the instance in place,
  so it returns the updated instance together with `Option PyErr` (the state at
  the moment an exception propagates).
* Recursion through `follow` is indexed by fuel (a `Nat`), mirroring the
  Python call stack: `fromdict`'s follow loop re-reads attributes that the
  simple-update loop may have just reassigned from `data`, so its recursion is
  not structural in the instance; fuel exhaustion is `PyErr.recursionError`.
-/

namespace Dictalchemy

/-- Python attribute slot on a class: the attribute may be absent (so
`getattr(obj, name, default)` returns the default), bound to `None`, or bound
to a value. -/
inductive PyAttr (α : Type) where
  | absent : PyAttr α
  | pynone : PyAttr α
  | val (a : α) : PyAttr α
deriving DecidableEq, Repr

/-- One entry of `model.__mapper__.iterate_properties`: a column property
(with the `primary_key` flags of its underlying columns), a synonym property,
or a relationship property. -/
inductive MapperProperty where
  | column (key : String) (pkFlags : List Bool) : MapperProperty
  | synonym (key : String) : MapperProperty
  | relationship (key : String) : MapperProperty
deriving DecidableEq, Repr

/-- The `key` of a mapper property. -/
def MapperProperty.key : MapperProperty → String
  | .column k _ => k
  | .synonym k => k
  | .relationship k => k

/-- A mapped class: its mapper's ordered property list plus the five
`dictalchemy_*` class attributes read via `getattr` in utils.py. -/
structure ModelClass where
  props : List MapperProperty
  dictalchemy_exclude : PyAttr (List String)
  dictalchemy_exclude_underscore : PyAttr Bool
  dictalchemy_fromdict_allow_pk : PyAttr Bool
  dictalchemy_asdict_include : PyAttr (List String)
  dictalchemy_fromdict_include : PyAttr (List String)
deriving DecidableEq, Repr

/-- Modelled from the spec: `dictalchemy.constants.default_exclude` is not
under src/; section 6 of the spec fixes the default `exclude` to the empty
set. -/
def default_exclude : List String := []

/-- Modelled from the spec: `dictalchemy.constants.default_exclude_underscore`
is not under src/; section 6 of the spec fixes the default to true. -/
def default_exclude_underscore : Bool := true

/-- Modelled from the spec: `dictalchemy.constants.default_fromdict_allow_pk`
is not under src/; section 6 of the spec fixes the default to false. -/
def default_fromdict_allow_pk : Bool := false

/-- utils.get_column_keys: keys of the `ColumnProperty` entries, in mapper
order. -/
def get_column_keys (cls : ModelClass) : List String :=
  (cls.props.filter fun p => match p with | .column _ _ => true | _ => false).map
    MapperProperty.key

/-- utils.get_synonym_keys: keys of the `SynonymProperty` entries, in mapper
order. -/
def get_synonym_keys (cls : ModelClass) : List String :=
  (cls.props.filter fun p => match p with | .synonym _ => true | _ => false).map
    MapperProperty.key

/-- utils.get_relation_keys: keys of the `RelationshipProperty` entries, in
mapper order. -/
def get_relation_keys (cls : ModelClass) : List String :=
  (cls.props.filter fun p => match p with | .relationship _ => true | _ => false).map
    MapperProperty.key

/-- utils.get_primary_key_properties: keys of the properties that have a
`columns` attribute (column properties) one of whose columns is flagged
`primary_key`.  The Python function returns a `set`; keys are unique within a
mapper, so the list below (in mapper order) is a faithful enumeration of it. -/
def get_primary_key_properties (cls : ModelClass) : List String :=
  (cls.props.filter fun p =>
    match p with | .column _ flags => flags.any id | _ => false).map
    MapperProperty.key

/-- Python `k.key[0] == '_'` (utils.py lines 93 and 173): the first character
of the name is an underscore.  SQLAlchemy property names are non-empty, so
the indexing never fails; an empty name yields false here. -/
def firstCharUnderscore (s : String) : Bool :=
  match s.data with
  | [] => false
  | c :: _ => c == '_'

/-- Keys of all mapper properties whose name starts with an underscore
(utils.py lines 92-93 and 172-173). -/
def underscore_keys (cls : ModelClass) : List String :=
  (cls.props.map MapperProperty.key).filter fun k => firstCharUnderscore k

/-- A Python runtime value as far as this library inspects it. `vilist` is an
`InstrumentedList` (relationship collection); `vlist` a plain list; `vdict` a
plain dict; `vobj cls dictable attrs` a mapped instance. -/
inductive PyVal where
  | vint (n : Int) : PyVal
  | vstr (s : String) : PyVal
  | vnone : PyVal
  | vlist (xs : List PyVal) : PyVal
  | vilist (xs : List PyVal) : PyVal
  | vdict (entries : List (String × PyVal)) : PyVal
  | vobj (cls : ModelClass) (dictable : Bool) (attrs : List (String × PyVal)) : PyVal
deriving Repr

/-- A Python dict with string keys, as an association list. -/
abbrev PyDict := List (String × PyVal)

/-- Dict lookup: first matching key wins. -/
def alistGet {α : Type} : List (String × α) → String → Option α
  | [], _ => none
  | (k', v) :: rest, k => if k' = k then some v else alistGet rest k

/-- Dict update: replace the first binding of the key in place, else append
(Python `d[k] = v` / `d.update({k: v})` semantics: existing keys keep their
position, new keys go to the end of the iteration order). -/
def alistSet {α : Type} : List (String × α) → String → α → List (String × α)
  | [], k, v => [(k, v)]
  | (k', v') :: rest, k, v =>
      if k' = k then (k, v) :: rest else (k', v') :: alistSet rest k v

/-- Python `dict(pairs)`: fold the pairs into an empty dict. -/
def dictOfPairs {α : Type} (ps : List (String × α)) : List (String × α) :=
  ps.foldl (fun d p => alistSet d p.1 p.2) []

mutual
/-- The keyword-argument bundle passed to `asdict` / `fromdict` (directly or
as a value of a `follow` dict).  Both directions' options live in one record
because a bundle is a plain Python dict of keyword arguments. -/
inductive Kw where
  | mk (exclude : Option (List String)) (exclude_underscore : Option Bool)
       (exclude_pk : Option Bool) (allow_pk : Option Bool)
       (follow : Option FollowArg) (includeArg : Option (List String)) : Kw

/-- The `follow` argument before normalization: either an ordered sequence of
relationship names or a mapping from name to bundle. -/
inductive FollowArg where
  | fseq (names : List String) : FollowArg
  | fmap (entries : List (String × FollowVal)) : FollowArg

/-- A value of a normalized follow dict: a keyword bundle, or a raw string
(produced when Python `dict()` parses a sequence of length-2 names as
key-value character pairs; unpacking such a value with `**` raises
TypeError). -/
inductive FollowVal where
  | kwargs (kw : Kw) : FollowVal
  | raw (s : String) : FollowVal
end

/-- Caller `exclude` keyword. -/
def Kw.exclude : Kw → Option (List String)
  | .mk e _ _ _ _ _ => e

/-- Caller `exclude_underscore` keyword. -/
def Kw.exclude_underscore : Kw → Option Bool
  | .mk _ eu _ _ _ _ => eu

/-- Caller `exclude_pk` keyword. -/
def Kw.exclude_pk : Kw → Option Bool
  | .mk _ _ epk _ _ _ => epk

/-- Caller `allow_pk` keyword. -/
def Kw.allow_pk : Kw → Option Bool
  | .mk _ _ _ apk _ _ => apk

/-- Caller `follow` keyword. -/
def Kw.follow : Kw → Option FollowArg
  | .mk _ _ _ _ fol _ => fol

/-- Caller `include` keyword. -/
def Kw.includeArg : Kw → Option (List String)
  | .mk _ _ _ _ _ inc => inc

/-- All keyword arguments at their defaults (an empty `**kwargs` dict). -/
def kwEmpty : Kw := Kw.mk none none none none none none

/-- Python `dict(['xy'])` parses the 2-character string as a key-value pair
`('x', 'y')`. -/
def twoCharPair (s : String) : String × FollowVal :=
  match s.data with
  | [a, b] => (String.mk [a], FollowVal.raw (String.mk [b]))
  | _ => (s, FollowVal.raw s)

/-- utils.py lines 77-82 / 156-161: `follow` normalization. `dict(follow)`
succeeds on a mapping, and on a sequence of names exactly when every name has
length 2 (each name is then parsed as a key-value character pair); otherwise
it raises ValueError and the code falls back to
`dict.fromkeys(list(follow), {})`, which maps every name to an empty
bundle. -/
def normalizeFollow : Option FollowArg → List (String × FollowVal)
  | none => []
  | some (.fmap entries) => dictOfPairs entries
  | some (.fseq names) =>
      if names.all (fun s => s.length == 2) then
        dictOfPairs (names.map twoCharPair)
      else
        dictOfPairs (names.map fun n => (n, FollowVal.kwargs kwEmpty))

/-- utils.py lines 85-86 / 164-165: the class contribution to `exclude`,
`getattr(model, 'dictalchemy_exclude', constants.default_exclude) or []`. -/
def classExcludeList (cls : ModelClass) : List String :=
  match cls.dictalchemy_exclude with
  | .absent => default_exclude
  | .pynone => []
  | .val l => l

/-- utils.py lines 87-90 / 166-170: resolution and subsequent truthiness test
of `exclude_underscore` (call-site value if not None, else the class
attribute, else the built-in default; an attribute bound to None is falsy). -/
def resolvedExcludeUnderscore (cls : ModelClass) (eu : Option Bool) : Bool :=
  match eu with
  | some b => b
  | none =>
      match cls.dictalchemy_exclude_underscore with
      | .absent => default_exclude_underscore
      | .pynone => false
      | .val b => b

/-- utils.py lines 175-177: resolution of `allow_pk`. -/
def resolvedAllowPk (cls : ModelClass) (apk : Option Bool) : Bool :=
  match apk with
  | some b => b
  | none =>
      match cls.dictalchemy_fromdict_allow_pk with
      | .absent => default_fromdict_allow_pk
      | .pynone => false
      | .val b => b

/-- utils.py lines 84-95: the full content of the local `exclude` list in
`asdict` after all `+=` extensions (caller list, class list, underscore names
when the resolved flag is truthy, primary-key names when `exclude_pk is
True`). -/
def effExcludeAsdict (cls : ModelClass) (kw : Kw) : List String :=
  ((kw.exclude.getD [] ++ classExcludeList cls)
    ++ (if resolvedExcludeUnderscore cls kw.exclude_underscore then
          underscore_keys cls else []))
    ++ (if kw.exclude_pk = some true then get_primary_key_properties cls else [])

/-- utils.py lines 163-173: the full content of the local `exclude` list in
`fromdict` (same as `asdict` but without the `exclude_pk` extension).  Note
that `fromdict` never reads this list after building it. -/
def effExcludeFromdict (cls : ModelClass) (kw : Kw) : List String :=
  (kw.exclude.getD [] ++ classExcludeList cls)
    ++ (if resolvedExcludeUnderscore cls kw.exclude_underscore then
          underscore_keys cls else [])

/-- utils.py lines 97-98: `include` for asdict,
`(include or []) + (getattr(model, 'dictalchemy_asdict_include', None) or [])`
(list `+` builds a fresh list). -/
def effIncludeAsdict (cls : ModelClass) (kw : Kw) : List String :=
  kw.includeArg.getD [] ++
    (match cls.dictalchemy_asdict_include with | .val l => l | _ => [])

/-- utils.py lines 179-180: `include` for fromdict. -/
def effIncludeFromdict (cls : ModelClass) (kw : Kw) : List String :=
  kw.includeArg.getD [] ++
    (match cls.dictalchemy_fromdict_include with | .val l => l | _ => [])

/-- Python list aliasing in `exclude = exclude or []` (utils.py line 84/163):
a non-empty (truthy) caller list is aliased by the local name, so the
following `+=` statements extend the caller-owned list in place; an empty or
None argument is replaced by a fresh list and the caller's object is left
untouched.  This definition gives the content of the caller's list after an
`asdict` call. -/
def callerExcludeAfterAsdict (cls : ModelClass) (e : List String)
    (eu : Option Bool) (epk : Option Bool) : List String :=
  if e = [] then e
  else effExcludeAsdict cls (Kw.mk (some e) eu epk none none none)

/-- Content of the caller's `exclude` list after a `fromdict` call (see
`callerExcludeAfterAsdict`; utils.py lines 163-173). -/
def callerExcludeAfterFromdict (cls : ModelClass) (e : List String)
    (eu : Option Bool) : List String :=
  if e = [] then e
  else effExcludeFromdict cls (Kw.mk (some e) eu none none none none)

/-- The exceptions utils.py can raise, plus the artifacts of the embedding:
`attributeError` for a failed `getattr`/attribute access, `recursionError`
for fuel exhaustion (Python's finite call stack). `pkProtection` is the bare
`Exception` raised at utils.py lines 190-192, `valueError` the ValueError of
lines 109-111 / 201-203, `typeError` a TypeError from `**`-unpacking a
non-mapping or calling `dict()` on a non-convertible value. -/
inductive PyErr where
  | valueError (msg : String) : PyErr
  | typeError (msg : String) : PyErr
  | attributeError (name : String) : PyErr
  | pkProtection (key : String) : PyErr
  | recursionError : PyErr
deriving DecidableEq, Repr

/-- The ValueError raised by utils.py lines 109-111 and 201-203 for a follow
key that is not a relationship. -/
def followKeyError (k : String) : PyErr :=
  PyErr.valueError ("Key " ++ k ++ " in parameter follow is not a relations")

/-- Python `hasattr(v, 'asdict')`: true exactly for instances of a class that
`make_class_dictable` has augmented (which attaches `asdict`, `fromdict` and
`__iter__` together). -/
def hasattrAsdict : PyVal → Bool
  | .vobj _ dictable _ => dictable
  | _ => false

/-- Evaluation of `**args` at a call site: a keyword bundle unpacks to its
keywords; a raw (non-mapping) value raises TypeError. -/
def kwToArgs : FollowVal → Except PyErr Kw
  | .kwargs kw => .ok kw
  | .raw s => .error (.typeError ("argument after ** must be a mapping, not str " ++ s))

/-- Python `getattr(instance, k)` on the modelled attribute dict. -/
def pyGetattr (attrs : PyDict) (k : String) : Except PyErr PyVal :=
  match alistGet attrs k with
  | some v => .ok v
  | none => .error (.attributeError k)

/-- utils.py line 104: evaluate `getattr(model, k)` for each selected key in
order, producing the pair list fed to `dict()`. -/
def collectPairs (attrs : PyDict) : List String → Except PyErr (List (String × PyVal))
  | [] => .ok []
  | k :: ks =>
      match alistGet attrs k with
      | none => .error (.attributeError k)
      | some v =>
          match collectPairs attrs ks with
          | .error e => .error e
          | .ok rest => .ok ((k, v) :: rest)

/-- Python `dict(child)` for a non-dictable element of a followed collection
(utils.py line 121).  A plain dict is copied; the values this library's data
model passes around otherwise (mapped instances without `__iter__`, scalars,
None) are not convertible and raise TypeError. -/
def pyDictCoerce : PyVal → Except PyErr PyVal
  | .vdict d => .ok (.vdict (dictOfPairs d))
  | _ => .error (.typeError "cannot convert value to dict")

/-- utils.py lines 115-122: serialize each element of a followed
`InstrumentedList` in order: a dictable element recurses with the bundle's
options, any other element goes through `dict(child)`.  `recur` is the
serializer at the next recursion depth. -/
def asdictChild (recur : PyVal → Kw → Except PyErr PyDict) (fv : FollowVal)
    (c : PyVal) : Except PyErr PyVal :=
  if hasattrAsdict c then
    match kwToArgs fv with
    | .error e => .error e
    | .ok args =>
        match recur c args with
        | .error e => .error e
        | .ok r => .ok (PyVal.vdict r)
  else pyDictCoerce c

/-- utils.py lines 115-122 (loop body): serialize each element of a followed
`InstrumentedList` in order via `asdictChild`. -/
def asdictChildren (recur : PyVal → Kw → Except PyErr PyDict) (fv : FollowVal) :
    List PyVal → Except PyErr (List PyVal)
  | [] => .ok []
  | c :: cs =>
      match asdictChild recur fv c with
      | .error e => .error e
      | .ok d =>
          match asdictChildren recur fv cs with
          | .error e => .error e
          | .ok rest => .ok (d :: rest)

/-- utils.py lines 107-122: the follow loop of `asdict`.  For each follow key
in iteration order: raise ValueError if it is not a relationship; otherwise
read the relation value and store its conversion, converting a dictable value
by recursion, an `InstrumentedList` element by element, and storing nothing
for any other (singular non-dictable) value. -/
def asdictFollowLoop (recur : PyVal → Kw → Except PyErr PyDict)
    (attrs : PyDict) (relations : List String) :
    List (String × FollowVal) → PyDict → Except PyErr PyDict
  | [], acc => .ok acc
  | (k, fv) :: rest, acc =>
      if k ∉ relations then .error (followKeyError k)
      else
        match alistGet attrs k with
        | none => .error (.attributeError k)
        | some rel =>
            if hasattrAsdict rel then
              match kwToArgs fv with
              | .error e => .error e
              | .ok args =>
                  match recur rel args with
                  | .error e => .error e
                  | .ok d =>
                      asdictFollowLoop recur attrs relations rest
                        (alistSet acc k (PyVal.vdict d))
            else
              match rel with
              | .vilist xs =>
                  match asdictChildren recur fv xs with
                  | .error e => .error e
                  | .ok cs =>
                      asdictFollowLoop recur attrs relations rest
                        (alistSet acc k (PyVal.vlist cs))
              | _ => asdictFollowLoop recur attrs relations rest acc

/-- Keys of the base field selection of `asdict` (utils.py line 104):
`columns + synonyms + include`, keeping only keys not in `exclude`, in that
concatenation order. -/
def asdictKeys (cls : ModelClass) (kw : Kw) : List String :=
  (get_column_keys cls ++ get_synonym_keys cls ++ effIncludeAsdict cls kw).filter
    (fun k => k ∉ effExcludeAsdict cls kw)

/-- utils.asdict (lines 53-124), indexed by recursion fuel (fuel 0 models an
exhausted call stack).  On a mapped instance: normalize `follow`, resolve the
configuration, build the base dict from `columns + synonyms + include` minus
`exclude` (line 104, keys and `getattr` values in `asdictKeys` order), then
run the follow loop over the base dict.  On any other value the mapper access
fails. -/
def asdictF : Nat → PyVal → Kw → Except PyErr PyDict
  | 0, _, _ => .error .recursionError
  | f + 1, .vobj cls _ attrs, kw =>
      match collectPairs attrs (asdictKeys cls kw) with
      | .error e => .error e
      | .ok ps =>
          asdictFollowLoop (fun v kw' => asdictF f v kw') attrs
            (get_relation_keys cls) (normalizeFollow kw.follow) (dictOfPairs ps)
  | _ + 1, _, _ => .error (.attributeError "__mapper__")

/-- utils.py lines 187-194: the simple-update loop of `fromdict`.  For each
`(k, v)` of `data` in iteration order: raise the primary-key protection error
when `allow_pk` is falsy and `k` is a primary-key property, else assign when
`k` is in `columns + synonyms + include`.  The computed `exclude` list is
never consulted here (it is dead after line 173).  Returns the attribute dict
at the moment the loop stops, together with the raised error if any. -/
def applyDataLoop (updatable : List String) (primary_keys : List String)
    (allow_pk : Bool) : PyDict → List (String × PyVal) → PyDict × Option PyErr
  | attrs, [] => (attrs, none)
  | attrs, (k, v) :: rest =>
      if ¬allow_pk ∧ k ∈ primary_keys then (attrs, some (.pkProtection k))
      else
        applyDataLoop updatable primary_keys allow_pk
          (if k ∈ updatable then alistSet attrs k v else attrs) rest

/-- utils.py lines 197-206: the follow loop of `fromdict`.  For each follow
key in iteration order: skip it when it is absent from `data` (before any
validation); raise ValueError when it is not a relationship; otherwise read
the current relation value and, when it is dictable, update it in place by
recursion with `data[k]` and the bundle's options.  Any other relation value
(including an `InstrumentedList`) is left untouched. -/
def fromdictFollowLoop (recur : PyVal → PyVal → Kw → PyVal × Option PyErr)
    (relations : List String) (data : List (String × PyVal)) :
    PyDict → List (String × FollowVal) → PyDict × Option PyErr
  | attrs, [] => (attrs, none)
  | attrs, (k, fv) :: rest =>
      match alistGet data k with
      | none => fromdictFollowLoop recur relations data attrs rest
      | some dv =>
          if k ∉ relations then (attrs, some (followKeyError k))
          else
            match alistGet attrs k with
            | none => (attrs, some (.attributeError k))
            | some rel =>
                if hasattrAsdict rel then
                  match kwToArgs fv with
                  | .error e => (attrs, some e)
                  | .ok args =>
                      match recur rel dv args with
                      | (rel', some e) => (alistSet attrs k rel', some e)
                      | (rel', none) =>
                          fromdictFollowLoop recur relations data
                            (alistSet attrs k rel') rest
                else fromdictFollowLoop recur relations data attrs rest

/-- utils.fromdict (lines 127-206), indexed by recursion fuel.  Mutation is in
place in Python, so the result is the updated instance paired with the error
that propagated, if any (the instance keeps every mutation applied before the
raise).  `data` must be a dict, otherwise `data.iteritems()` fails.  The
`exclude` list of lines 163-173 is computed (extending a truthy caller list in
place, see `callerExcludeAfterFromdict`) but never used afterwards. -/
def fromdictF : Nat → PyVal → PyVal → Kw → PyVal × Option PyErr
  | 0, m, _, _ => (m, some .recursionError)
  | f + 1, .vobj cls dictable attrs, .vdict data, kw =>
      let allow_pk := resolvedAllowPk cls kw.allow_pk
      let incl := effIncludeFromdict cls kw
      let columns := get_column_keys cls
      let synonyms := get_synonym_keys cls
      let relations := get_relation_keys cls
      let primary_keys := get_primary_key_properties cls
      let follow := normalizeFollow kw.follow
      match applyDataLoop (columns ++ synonyms ++ incl) primary_keys allow_pk
          attrs data with
      | (attrs1, some e) => (.vobj cls dictable attrs1, some e)
      | (attrs1, none) =>
          match fromdictFollowLoop (fun r dv a => fromdictF f r dv a) relations
              data attrs1 follow with
          | (attrs2, err) => (.vobj cls dictable attrs2, err)
  | _ + 1, .vobj cls dictable attrs, _, _ =>
      (.vobj cls dictable attrs, some (.attributeError "iteritems"))
  | _ + 1, m, _, _ => (m, some (.attributeError "__mapper__"))

/-! ### Association-list lemmas -/

theorem alistGet_alistSet_self {α : Type} (d : List (String × α)) (k : String) (v : α) :
    alistGet (alistSet d k v) k = some v := by
  induction d with
  | nil => simp [alistSet, alistGet]
  | cons p rest ih =>
      obtain ⟨k', v'⟩ := p
      by_cases h : k' = k
      · simp [alistSet, h, alistGet]
      · simp [alistSet, h, alistGet, ih]

theorem alistGet_alistSet_ne {α : Type} (d : List (String × α)) (k k' : String) (v : α)
    (h : k' ≠ k) : alistGet (alistSet d k v) k' = alistGet d k' := by
  have hkk : ¬(k = k') := fun hh => h hh.symm
  induction d with
  | nil => simp [alistSet, alistGet, hkk]
  | cons p rest ih =>
      obtain ⟨k0, v0⟩ := p
      by_cases hk : k0 = k
      · subst hk
        simp [alistSet, alistGet, hkk]
      · simp only [alistSet, if_neg hk, alistGet]
        by_cases hk' : k0 = k'
        · simp [hk']
        · simp [hk', ih]

theorem alistSet_eq_self {α : Type} (d : List (String × α)) (k : String) (v : α)
    (h : alistGet d k = some v) : alistSet d k v = d := by
  induction d with
  | nil => simp [alistGet] at h
  | cons p rest ih =>
      obtain ⟨k0, v0⟩ := p
      by_cases hk : k0 = k
      · subst hk
        simp [alistGet] at h
        simp [alistSet, h]
      · simp [alistGet, hk] at h
        simp [alistSet, hk, ih h]

theorem mem_alistSet {α : Type} (d : List (String × α)) (k : String) (v : α)
    (p : String × α) (h : p ∈ alistSet d k v) : p ∈ d ∨ p = (k, v) := by
  induction d with
  | nil => simp [alistSet] at h; simp [h]
  | cons q rest ih =>
      obtain ⟨k0, v0⟩ := q
      by_cases hk : k0 = k
      · simp [alistSet, hk] at h
        rcases h with h | h
        · right; simp [h]
        · left; simp [h]
      · simp [alistSet, hk] at h
        rcases h with h | h
        · left; simp [h]
        · rcases ih h with h' | h'
          · left; simp [h']
          · right; exact h'

theorem mem_foldl_alistSet {α : Type} (ps : List (String × α)) (p : String × α) :
    ∀ acc : List (String × α),
      p ∈ ps.foldl (fun d q => alistSet d q.1 q.2) acc → p ∈ acc ∨ p ∈ ps := by
  induction ps with
  | nil => intro acc h; simp at h; simp [h]
  | cons q rest ih =>
      intro acc h
      simp only [List.foldl_cons] at h
      rcases ih (alistSet acc q.1 q.2) h with h' | h'
      · rcases mem_alistSet acc q.1 q.2 p h' with h'' | h''
        · left; exact h''
        · right; simp [h'']
      · right; right; exact h'

theorem mem_dictOfPairs {α : Type} (ps : List (String × α)) (p : String × α)
    (h : p ∈ dictOfPairs ps) : p ∈ ps := by
  rcases mem_foldl_alistSet ps p [] h with h' | h'
  · simp at h'
  · exact h'

theorem alistGet_eq_none_iff {α : Type} (d : List (String × α)) (k : String) :
    alistGet d k = none ↔ k ∉ d.map Prod.fst := by
  induction d with
  | nil => simp [alistGet]
  | cons p rest ih =>
      obtain ⟨k0, v0⟩ := p
      by_cases hk : k0 = k
      · simp [alistGet, hk]
      · simp [alistGet, hk, ih, Ne.symm hk]

theorem foldl_alistSet_head {α : Type} (ps : List (String × α)) (b : String) :
    ∀ (v : α) (t : List (String × α)),
      ∃ v' t', ps.foldl (fun d q => alistSet d q.1 q.2) ((b, v) :: t) = (b, v') :: t' := by
  induction ps with
  | nil => intro v t; exact ⟨v, t, rfl⟩
  | cons q rest ih =>
      intro v t
      by_cases hb : b = q.1
      · subst hb
        simpa [alistSet] using ih q.2 t
      · simpa [alistSet, hb] using ih v (alistSet t q.1 q.2)

theorem dictOfPairs_cons_head {α : Type} (b : String) (x : α) (ps : List (String × α)) :
    ∃ v' t', dictOfPairs ((b, x) :: ps) = (b, v') :: t' := by
  simpa [dictOfPairs, alistSet] using foldl_alistSet_head ps b x []

/-! ### collectPairs lemmas -/

theorem collectPairs_ok_mem (attrs : PyDict) (ks : List String) :
    ∀ ps, collectPairs attrs ks = .ok ps →
      ∀ p ∈ ps, alistGet attrs p.1 = some p.2 := by
  induction ks with
  | nil =>
      intro ps h
      simp [collectPairs] at h
      subst h; intro p hp; cases hp
  | cons k rest ih =>
      intro ps h
      simp only [collectPairs] at h
      rcases hg : alistGet attrs k with _ | v
      · rw [hg] at h; simp at h
      · rw [hg] at h
        rcases hr : collectPairs attrs rest with e' | ps'
        · rw [hr] at h; simp at h
        · rw [hr] at h
          simp at h
          subst h
          intro p hp
          rcases List.mem_cons.mp hp with hp | hp
          · subst hp; exact hg
          · exact ih ps' hr p hp

theorem collectPairs_keys (attrs : PyDict) (ks : List String) :
    ∀ ps, collectPairs attrs ks = .ok ps → ps.map Prod.fst = ks := by
  induction ks with
  | nil => intro ps h; simp [collectPairs] at h; subst h; rfl
  | cons k rest ih =>
      intro ps h
      simp only [collectPairs] at h
      rcases hg : alistGet attrs k with _ | v
      · rw [hg] at h; simp at h
      · rw [hg] at h
        rcases hr : collectPairs attrs rest with e' | ps'
        · rw [hr] at h; simp at h
        · rw [hr] at h
          simp at h
          subst h
          simp [ih ps' hr]

theorem collectPairs_exists (attrs : PyDict) (ks : List String)
    (h : ∀ k ∈ ks, (alistGet attrs k).isSome) :
    ∃ ps, collectPairs attrs ks = .ok ps := by
  induction ks with
  | nil => exact ⟨[], rfl⟩
  | cons k rest ih =>
      have hk := h k (by simp)
      rcases hv : alistGet attrs k with _ | v
      · rw [hv] at hk; simp at hk
      · obtain ⟨ps, hps⟩ := ih fun k' hk' => h k' (by simp [hk'])
        refine ⟨(k, v) :: ps, ?_⟩
        simp [collectPairs, hv, hps]

/-! ### Metadata lemmas -/

theorem pk_subset_columns (cls : ModelClass) :
    ∀ k ∈ get_primary_key_properties cls, k ∈ get_column_keys cls := by
  intro k hk
  simp only [get_primary_key_properties, List.mem_map, List.mem_filter] at hk
  obtain ⟨p, ⟨hp, hmatch⟩, hkey⟩ := hk
  simp only [get_column_keys, List.mem_map, List.mem_filter]
  refine ⟨p, ⟨hp, ?_⟩, hkey⟩
  cases p <;> simp_all

/-! ### Simple-update loop lemmas -/

theorem applyDataLoop_fst_unchanged (u pks : List String) (apk : Bool)
    (data : List (String × PyVal)) :
    ∀ attrs : PyDict, (∀ p ∈ data, alistGet attrs p.1 = some p.2) →
      (applyDataLoop u pks apk attrs data).1 = attrs := by
  induction data with
  | nil => intro attrs _; rfl
  | cons q rest ih =>
      intro attrs h
      obtain ⟨k, v⟩ := q
      by_cases hpk : ¬apk ∧ k ∈ pks
      · simp [applyDataLoop, hpk]
      · have hset : (if k ∈ u then alistSet attrs k v else attrs) = attrs := by
          by_cases hu : k ∈ u
          · simp only [if_pos hu]
            exact alistSet_eq_self attrs k v (h (k, v) (by simp))
          · simp [hu]
        simp only [applyDataLoop, if_neg hpk, hset]
        exact ih attrs fun p hp => h p (by simp [hp])

theorem applyDataLoop_pk_error (u pks : List String)
    (data : List (String × PyVal)) (k : String) (v : PyVal)
    (hk : k ∈ pks) (hmem : (k, v) ∈ data) :
    ∀ attrs : PyDict, ∃ kp attrs1, kp ∈ pks ∧
      applyDataLoop u pks false attrs data = (attrs1, some (.pkProtection kp)) ∧
      alistGet attrs1 k = alistGet attrs k := by
  induction data with
  | nil => cases hmem
  | cons q rest ih =>
      intro attrs
      obtain ⟨k0, v0⟩ := q
      by_cases hpk : k0 ∈ pks
      · exact ⟨k0, attrs, hpk, by simp [applyDataLoop, hpk], rfl⟩
      · have hk0 : k0 ≠ k := fun hh => hpk (hh ▸ hk)
        have hmem' : (k, v) ∈ rest := by
          rcases List.mem_cons.mp hmem with hh | hh
          · exact absurd (congrArg Prod.fst hh) (by simpa using hk0.symm)
          · exact hh
        obtain ⟨kp, attrs1, hkp, heq, hget⟩ :=
          ih hmem' (if k0 ∈ u then alistSet attrs k0 v0 else attrs)
        refine ⟨kp, attrs1, hkp, ?_, ?_⟩
        · simpa [applyDataLoop, hpk] using heq
        · rw [hget]
          by_cases hu : k0 ∈ u
          · simp [hu, alistGet_alistSet_ne attrs k0 k v0 (Ne.symm hk0)]
          · simp [hu]

theorem applyDataLoop_no_err_of_allow (u pks : List String)
    (data : List (String × PyVal)) :
    ∀ attrs : PyDict, (applyDataLoop u pks true attrs data).2 = none := by
  induction data with
  | nil => intro attrs; rfl
  | cons q rest ih =>
      intro attrs
      obtain ⟨k, v⟩ := q
      simp only [applyDataLoop]
      simp [ih]

theorem applyDataLoop_lookup_not_mem (u pks : List String) (apk : Bool)
    (data : List (String × PyVal)) (k : String)
    (hk : k ∉ data.map Prod.fst) :
    ∀ attrs : PyDict,
      alistGet (applyDataLoop u pks apk attrs data).1 k = alistGet attrs k := by
  induction data with
  | nil => intro attrs; rfl
  | cons q rest ih =>
      intro attrs
      obtain ⟨k0, v0⟩ := q
      have hk0 : k0 ≠ k := fun hh => hk (by simp [hh])
      have hkrest : k ∉ rest.map Prod.fst := fun hh => hk (by simp [hh])
      by_cases hpk : ¬apk ∧ k0 ∈ pks
      · simp [applyDataLoop, hpk]
      · simp only [applyDataLoop, if_neg hpk]
        rw [ih hkrest]
        by_cases hu : k0 ∈ u
        · simp [hu, alistGet_alistSet_ne attrs k0 k v0 (Ne.symm hk0)]
        · simp [hu]

theorem applyDataLoop_sets (u pks : List String)
    (data : List (String × PyVal)) (k : String) (v : PyVal)
    (hu : k ∈ u) (hnd : (data.map Prod.fst).Nodup) (hmem : (k, v) ∈ data) :
    ∀ attrs : PyDict,
      alistGet (applyDataLoop u pks true attrs data).1 k = some v := by
  induction data with
  | nil => cases hmem
  | cons q rest ih =>
      intro attrs
      obtain ⟨k0, v0⟩ := q
      simp only [List.map_cons, List.nodup_cons] at hnd
      have hcond : ¬(¬True ∧ k0 ∈ pks) := by simp
      by_cases hk0 : k0 = k
      · have hv0 : v0 = v := by
          rcases List.mem_cons.mp hmem with hh | hh
          · simp at hh; exact hh.2.symm
          · exact absurd (List.mem_map_of_mem Prod.fst hh) (hk0 ▸ hnd.1)
        have hnotrest : k ∉ rest.map Prod.fst := hk0 ▸ hnd.1
        simp only [applyDataLoop]
        rw [if_neg hcond]
        rw [applyDataLoop_lookup_not_mem u pks true rest k hnotrest]
        simp [hk0, hv0, hu, alistGet_alistSet_self]
      · have hmem' : (k, v) ∈ rest := by
          rcases List.mem_cons.mp hmem with hh | hh
          · simp at hh; exact absurd hh.1.symm hk0
          · exact hh
        simp only [applyDataLoop]
        rw [if_neg hcond]
        exact ih hnd.2 hmem' _

/-! ### Unfolding helpers -/

theorem fromdictF_vobj (f : Nat) (cls : ModelClass) (dd : Bool) (attrs : PyDict)
    (data : List (String × PyVal)) (kw : Kw) :
    fromdictF (f + 1) (.vobj cls dd attrs) (.vdict data) kw =
      match applyDataLoop
          (get_column_keys cls ++ get_synonym_keys cls ++ effIncludeFromdict cls kw)
          (get_primary_key_properties cls) (resolvedAllowPk cls kw.allow_pk)
          attrs data with
      | (attrs1, some e) => (.vobj cls dd attrs1, some e)
      | (attrs1, none) =>
          match fromdictFollowLoop (fun r dv a => fromdictF f r dv a)
              (get_relation_keys cls) data attrs1 (normalizeFollow kw.follow) with
          | (attrs2, err) => (.vobj cls dd attrs2, err) := rfl

theorem asdictF_vobj (f : Nat) (cls : ModelClass) (dd : Bool) (attrs : PyDict)
    (kw : Kw) :
    asdictF (f + 1) (.vobj cls dd attrs) kw =
      match collectPairs attrs (asdictKeys cls kw) with
      | .error e => .error e
      | .ok ps =>
          asdictFollowLoop (fun v kw' => asdictF f v kw') attrs
            (get_relation_keys cls) (normalizeFollow kw.follow) (dictOfPairs ps) := rfl

/-! ### Claim C1 -/

/-- A mapped class with a single non-primary-key column `a` and no
`dictalchemy_*` attributes set. -/
def C1cls : ModelClass :=
  ⟨[.column "a" [false]], .absent, .absent, .absent, .absent, .absent⟩

/-- C1: the claim fails on the code (code bug).  At the failing input — the
column name `a` placed in both the call-site `exclude` and `include` lists —
`asdict` omits `a` from its output exactly as the claim states, but the
identical `fromdict` call assigns `a` from `data` anyway: the effective
`exclude` list built at utils.py lines 163-173 is never consulted by the
update loop (line 193 tests only `columns + synonyms + include`), although
the `fromdict` docstring documents `exclude` as a list of properties that
should be excluded.  So exclusion does not dominate inclusion in
`fromdict`. -/
theorem C1_fromdict_ignores_exclude :
    asdictF 1 (.vobj C1cls true [("a", .vint 0)])
        (Kw.mk (some ["a"]) none none none none (some ["a"])) = .ok [] ∧
    fromdictF 1 (.vobj C1cls true [("a", .vint 0)]) (.vdict [("a", .vint 1)])
        (Kw.mk (some ["a"]) none none none none (some ["a"])) =
      (.vobj C1cls true [("a", .vint 1)], none) :=
  ⟨rfl, rfl⟩

/-! ### Claim C2 -/

/-- A mapped class with an underscore-prefixed column `_x` and a plain column
`y`. -/
def C2cls : ModelClass :=
  ⟨[.column "_x" [false], .column "y" [false]], .absent, .absent, .absent, .absent, .absent⟩

/-- C2: the `asdict` half of the claim holds — with `exclude_underscore`
resolving true the underscore field `_x` is absent from the output, and with
it resolving false `_x` is present — but the `fromdict` half fails on the
code (code bug): with `exclude_underscore=True`, `fromdict` still assigns
`_x` from `data`, because the underscore names are only appended to the dead
`exclude` list (utils.py lines 170-173) which the update loop never reads,
although the docstring says underscore properties will be excluded. -/
theorem C2_underscore_fromdict_bug :
    asdictF 1 (.vobj C2cls true [("_x", .vint 3), ("y", .vint 4)])
        (Kw.mk none (some true) none none none none) = .ok [("y", .vint 4)] ∧
    asdictF 1 (.vobj C2cls true [("_x", .vint 3), ("y", .vint 4)])
        (Kw.mk none (some false) none none none none) =
      .ok [("_x", .vint 3), ("y", .vint 4)] ∧
    fromdictF 1 (.vobj C2cls true [("_x", .vint 3), ("y", .vint 4)])
        (.vdict [("_x", .vint 5)]) (Kw.mk none (some true) none none none none) =
      (.vobj C2cls true [("_x", .vint 5), ("y", .vint 4)], none) :=
  ⟨rfl, rfl, rfl⟩

/-! ### Claim C3 -/

/-- C3: with the effective `allow_pk` false, a `fromdict` call whose `data`
contains a primary-key field name raises the primary-key protection error
(the bare Exception of utils.py lines 190-192), and the attribute for that
key is never mutated (the raise happens before the assignment of that key;
keys processed earlier in `data` order may already have been applied).  The
identical call with `allow_pk` resolving true succeeds and sets the
primary-key attribute to the value from `data`. -/
theorem C3_pk_protection (f : Nat) (cls : ModelClass) (dd : Bool)
    (attrs : PyDict) (data : List (String × PyVal)) (k : String) (v : PyVal)
    (e : Option (List String)) (eu : Option Bool) (epk : Option Bool)
    (apkF apkT : Option Bool) (inc : Option (List String))
    (hF : resolvedAllowPk cls apkF = false)
    (hT : resolvedAllowPk cls apkT = true)
    (hk : k ∈ get_primary_key_properties cls)
    (hmem : (k, v) ∈ data)
    (hnd : (data.map Prod.fst).Nodup) :
    (∃ kp attrs1, kp ∈ get_primary_key_properties cls ∧
        fromdictF (f + 1) (.vobj cls dd attrs) (.vdict data)
            (Kw.mk e eu epk apkF none inc) =
          (.vobj cls dd attrs1, some (.pkProtection kp)) ∧
        alistGet attrs1 k = alistGet attrs k) ∧
    (∃ attrs2,
        fromdictF (f + 1) (.vobj cls dd attrs) (.vdict data)
            (Kw.mk e eu epk apkT none inc) =
          (.vobj cls dd attrs2, none) ∧
        alistGet attrs2 k = some v) := by
  constructor
  · obtain ⟨kp, attrs1, hkp, heq, hget⟩ :=
      applyDataLoop_pk_error
        (get_column_keys cls ++ get_synonym_keys cls ++
          effIncludeFromdict cls (Kw.mk e eu epk apkF none inc))
        (get_primary_key_properties cls) data k v hk hmem attrs
    refine ⟨kp, attrs1, hkp, ?_, hget⟩
    rw [fromdictF_vobj]
    simp only [Kw.allow_pk, hF]
    rw [heq]
  · have hu : k ∈ get_column_keys cls ++ get_synonym_keys cls ++
        effIncludeFromdict cls (Kw.mk e eu epk apkT none inc) := by
      have := pk_subset_columns cls k hk
      simp [List.mem_append, this]
    rcases happly : applyDataLoop
        (get_column_keys cls ++ get_synonym_keys cls ++
          effIncludeFromdict cls (Kw.mk e eu epk apkT none inc))
        (get_primary_key_properties cls) true attrs data with ⟨attrs2, err⟩
    have herr : err = none := by
      have h2 := applyDataLoop_no_err_of_allow
        (get_column_keys cls ++ get_synonym_keys cls ++
          effIncludeFromdict cls (Kw.mk e eu epk apkT none inc))
        (get_primary_key_properties cls) data attrs
      rw [happly] at h2
      exact h2
    subst herr
    have hset := applyDataLoop_sets
      (get_column_keys cls ++ get_synonym_keys cls ++
        effIncludeFromdict cls (Kw.mk e eu epk apkT none inc))
      (get_primary_key_properties cls) data k v hu hnd hmem attrs
    rw [happly] at hset
    refine ⟨attrs2, ?_, hset⟩
    rw [fromdictF_vobj]
    simp only [Kw.allow_pk, Kw.follow, hT]
    rw [happly]
    simp [normalizeFollow, fromdictFollowLoop]

/-- A class with a primary-key column `id` and a plain column `y`, for the C3
witness. -/
def C3cls : ModelClass :=
  ⟨[.column "id" [true], .column "y" [false]], .absent, .absent, .absent, .absent, .absent⟩

/-- Witness for C3 at a concrete input: `data = {'y': 7, 'id': 5}` against an
instance with `id=1, y=2`; with `allow_pk=False` the call raises and `id` is
untouched, with `allow_pk=True` it succeeds and sets `id=5`. -/
theorem C3_pk_protection_witness :
    resolvedAllowPk C3cls (some false) = false ∧
    resolvedAllowPk C3cls (some true) = true ∧
    "id" ∈ get_primary_key_properties C3cls ∧
    ("id", PyVal.vint 5) ∈ [("y", PyVal.vint 7), ("id", PyVal.vint 5)] ∧
    (([("y", PyVal.vint 7), ("id", PyVal.vint 5)].map Prod.fst).Nodup) ∧
    ((∃ kp attrs1, kp ∈ get_primary_key_properties C3cls ∧
        fromdictF 1 (.vobj C3cls true [("id", .vint 1), ("y", .vint 2)])
            (.vdict [("y", .vint 7), ("id", .vint 5)])
            (Kw.mk none none none (some false) none none) =
          (.vobj C3cls true attrs1, some (.pkProtection kp)) ∧
        alistGet attrs1 "id" = alistGet [("id", PyVal.vint 1), ("y", PyVal.vint 2)] "id") ∧
     (∃ attrs2,
        fromdictF 1 (.vobj C3cls true [("id", .vint 1), ("y", .vint 2)])
            (.vdict [("y", .vint 7), ("id", .vint 5)])
            (Kw.mk none none none (some true) none none) =
          (.vobj C3cls true attrs2, none) ∧
        alistGet attrs2 "id" = some (PyVal.vint 5))) :=
  ⟨rfl, rfl, by decide,
   List.mem_cons_of_mem _ (List.mem_cons_self _ _),
   by decide,
   C3_pk_protection 0 C3cls true [("id", .vint 1), ("y", .vint 2)]
     [("y", .vint 7), ("id", .vint 5)] "id" (.vint 5)
     none none none (some false) (some true) none
     rfl rfl (by decide)
     (List.mem_cons_of_mem _ (List.mem_cons_self _ _)) (by decide)⟩

/-! ### Claim C10 -/

/-- C10: when the caller passes a non-empty (truthy) list as `exclude`, the
`exclude = exclude or []` at utils.py line 84/163 aliases the caller-owned
list, so the subsequent `+=` statements extend it in place instead of
building a fresh effective exclude set: after the call the caller's list is
exactly the effective exclude list — it still begins with its original
content and additionally contains the class's default exclude names, every
underscore-prefixed property name when `exclude_underscore` resolves true,
and, for `asdict` with `exclude_pk=True`, the primary-key property names. -/
theorem C10_caller_exclude_extended (cls : ModelClass) (e : List String)
    (eu : Option Bool) (epk : Option Bool) (apk : Option Bool)
    (fol : Option FollowArg) (inc : Option (List String)) (h : e ≠ []) :
    callerExcludeAfterAsdict cls e eu epk =
        effExcludeAsdict cls (Kw.mk (some e) eu epk apk fol inc) ∧
    callerExcludeAfterFromdict cls e eu =
        effExcludeFromdict cls (Kw.mk (some e) eu epk apk fol inc) ∧
    (callerExcludeAfterAsdict cls e eu epk).take e.length = e ∧
    (callerExcludeAfterFromdict cls e eu).take e.length = e ∧
    (∀ n ∈ classExcludeList cls, n ∈ callerExcludeAfterAsdict cls e eu epk ∧
        n ∈ callerExcludeAfterFromdict cls e eu) ∧
    (resolvedExcludeUnderscore cls eu = true →
      ∀ n ∈ underscore_keys cls, n ∈ callerExcludeAfterAsdict cls e eu epk ∧
        n ∈ callerExcludeAfterFromdict cls e eu) ∧
    (epk = some true →
      ∀ n ∈ get_primary_key_properties cls,
        n ∈ callerExcludeAfterAsdict cls e eu epk) := by
  have hA : callerExcludeAfterAsdict cls e eu epk =
      effExcludeAsdict cls (Kw.mk (some e) eu epk apk fol inc) := by
    simp [callerExcludeAfterAsdict, effExcludeAsdict, h, Kw.exclude,
      Kw.exclude_underscore, Kw.exclude_pk]
  have hB : callerExcludeAfterFromdict cls e eu =
      effExcludeFromdict cls (Kw.mk (some e) eu epk apk fol inc) := by
    simp [callerExcludeAfterFromdict, effExcludeFromdict, h, Kw.exclude,
      Kw.exclude_underscore]
  refine ⟨hA, hB, ?_, ?_, ?_, ?_, ?_⟩
  · rw [hA]
    simp only [effExcludeAsdict, Kw.exclude, Kw.exclude_underscore,
      Kw.exclude_pk, Option.getD_some, List.append_assoc]
    exact List.take_left e _
  · rw [hB]
    simp only [effExcludeFromdict, Kw.exclude, Kw.exclude_underscore,
      Option.getD_some, List.append_assoc]
    exact List.take_left e _
  · intro n hn
    rw [hA, hB]
    constructor
    · simp only [effExcludeAsdict, Kw.exclude, Kw.exclude_underscore,
        Kw.exclude_pk, Option.getD_some]
      simp [List.mem_append, hn]
    · simp only [effExcludeFromdict, Kw.exclude, Kw.exclude_underscore,
        Option.getD_some]
      simp [List.mem_append, hn]
  · intro hres n hn
    rw [hA, hB]
    constructor
    · simp only [effExcludeAsdict, Kw.exclude, Kw.exclude_underscore,
        Kw.exclude_pk, Option.getD_some, hres]
      simp [List.mem_append, hn]
    · simp only [effExcludeFromdict, Kw.exclude, Kw.exclude_underscore,
        Option.getD_some, hres]
      simp [List.mem_append, hn]
  · intro hepk n hn
    rw [hA]
    simp only [effExcludeAsdict, Kw.exclude, Kw.exclude_underscore,
      Kw.exclude_pk, Option.getD_some, hepk]
    simp [List.mem_append, hn]

/-- A class with a primary-key column, an underscore column and a class-level
default exclude list, for the C10 witness. -/
def C10cls : ModelClass :=
  ⟨[.column "id" [true], .column "_h" [false], .column "y" [false]],
    .val ["cdef"], .absent, .absent, .absent, .absent⟩

/-- Witness for C10 at a concrete input: a caller list `['z']` ends up as the
effective exclude list itself. -/
theorem C10_caller_exclude_extended_witness :
    (["z"] : List String) ≠ [] ∧
    callerExcludeAfterAsdict C10cls ["z"] (some true) (some true) =
      effExcludeAsdict C10cls (Kw.mk (some ["z"]) (some true) (some true) none none none) :=
  ⟨by decide,
   (C10_caller_exclude_extended C10cls ["z"] (some true) (some true) none none none
     (by decide)).1⟩

/-! ### Claim C4 -/

/-- C4: round-trip law.  For any instance and any option sets with no
`follow` in either call, feeding `asdict`'s output back through `fromdict`
leaves the instance with every attribute equal to its value before the calls
(a fact stronger than the claim, which asks it of the non-excluded,
non-relationship fields): every key of the produced mapping carries the
instance's own current attribute value, so each assignment the update loop
performs rewrites an attribute with the value it already has — and this holds
on the error path too, so the primary-key proviso in the claim is not even
needed for attribute preservation (with primary keys present and `allow_pk`
false the call raises, but mutates nothing observably). -/
theorem C4_roundtrip (fa ff : Nat) (cls : ModelClass) (dd : Bool)
    (attrs d : PyDict) (eA : Option (List String)) (euA epkA apkA : Option Bool)
    (incA : Option (List String)) (eF : Option (List String))
    (euF epkF apkF : Option Bool) (incF : Option (List String))
    (hA : asdictF (fa + 1) (.vobj cls dd attrs)
        (Kw.mk eA euA epkA apkA none incA) = .ok d) :
    (fromdictF (ff + 1) (.vobj cls dd attrs) (.vdict d)
        (Kw.mk eF euF epkF apkF none incF)).1 = .vobj cls dd attrs := by
  rw [asdictF_vobj] at hA
  rcases hcp : collectPairs attrs (asdictKeys cls (Kw.mk eA euA epkA apkA none incA))
      with e' | ps
  · rw [hcp] at hA; simp at hA
  · rw [hcp] at hA
    simp only [Kw.follow, normalizeFollow, asdictFollowLoop] at hA
    have hd : d = dictOfPairs ps := by
      cases hA; rfl
    have hvals : ∀ p ∈ d, alistGet attrs p.1 = some p.2 := by
      intro p hp
      exact collectPairs_ok_mem attrs _ ps hcp p (mem_dictOfPairs ps p (hd ▸ hp))
    rw [fromdictF_vobj]
    rcases happly : applyDataLoop
        (get_column_keys cls ++ get_synonym_keys cls ++
          effIncludeFromdict cls (Kw.mk eF euF epkF apkF none incF))
        (get_primary_key_properties cls)
        (resolvedAllowPk cls (Kw.allow_pk (Kw.mk eF euF epkF apkF none incF)))
        attrs d with ⟨attrs1, err⟩
    have hunch : attrs1 = attrs := by
      have h1 := applyDataLoop_fst_unchanged
        (get_column_keys cls ++ get_synonym_keys cls ++
          effIncludeFromdict cls (Kw.mk eF euF epkF apkF none incF))
        (get_primary_key_properties cls)
        (resolvedAllowPk cls (Kw.allow_pk (Kw.mk eF euF epkF apkF none incF)))
        d attrs hvals
      rw [happly] at h1
      exact h1
    subst hunch
    cases err <;> simp [Kw.follow, normalizeFollow, fromdictFollowLoop]

/-- A class with a primary-key column `id` and a plain column `y`, for the C4
witness. -/
def C4cls : ModelClass :=
  ⟨[.column "id" [true], .column "y" [false]], .absent, .absent, .absent, .absent, .absent⟩

/-- Witness for C4 at a concrete input: the default-option round trip on an
instance with `id=1, y=2` leaves the instance unchanged. -/
theorem C4_roundtrip_witness :
    asdictF 1 (.vobj C4cls true [("id", .vint 1), ("y", .vint 2)])
        (Kw.mk none none none none none none) =
      .ok [("id", .vint 1), ("y", .vint 2)] ∧
    (fromdictF 1 (.vobj C4cls true [("id", .vint 1), ("y", .vint 2)])
        (.vdict [("id", .vint 1), ("y", .vint 2)])
        (Kw.mk none none none none none none)).1 =
      .vobj C4cls true [("id", .vint 1), ("y", .vint 2)] :=
  ⟨rfl,
   C4_roundtrip 0 0 C4cls true [("id", .vint 1), ("y", .vint 2)]
     [("id", .vint 1), ("y", .vint 2)] none none none none none
     none none none none none rfl⟩

/-! ### Claim C5 -/

theorem normalizeFollow_fseq_eq (names : List String)
    (h : names = [] ∨ ∃ n ∈ names, n.length ≠ 2) :
    normalizeFollow (some (.fseq names)) =
      normalizeFollow
        (some (.fmap (names.map fun n => (n, FollowVal.kwargs kwEmpty)))) := by
  rcases h with h | ⟨n, hn, hlen⟩
  · subst h; rfl
  · have hall : ¬(names.all (fun s => s.length == 2) = true) := by
      rw [List.all_eq_true]
      intro hforall
      exact hlen (by simpa using hforall n hn)
    simp [normalizeFollow, hall]

theorem asdictF_follow_congr (fol1 fol2 : Option FollowArg)
    (h : normalizeFollow fol1 = normalizeFollow fol2)
    (f : Nat) (v : PyVal) (e : Option (List String)) (eu epk apk : Option Bool)
    (inc : Option (List String)) :
    asdictF f v (Kw.mk e eu epk apk fol1 inc) =
      asdictF f v (Kw.mk e eu epk apk fol2 inc) := by
  cases f with
  | zero => rfl
  | succ f' =>
      cases v with
      | vobj cls dd attrs =>
          rw [asdictF_vobj, asdictF_vobj]
          simp only [Kw.follow]
          rw [h]
          rfl
      | vint n => rfl
      | vstr s => rfl
      | vnone => rfl
      | vlist xs => rfl
      | vilist xs => rfl
      | vdict d => rfl

theorem fromdictF_follow_congr (fol1 fol2 : Option FollowArg)
    (h : normalizeFollow fol1 = normalizeFollow fol2)
    (f : Nat) (m dv : PyVal) (e : Option (List String)) (eu epk apk : Option Bool)
    (inc : Option (List String)) :
    fromdictF f m dv (Kw.mk e eu epk apk fol1 inc) =
      fromdictF f m dv (Kw.mk e eu epk apk fol2 inc) := by
  cases f with
  | zero => rfl
  | succ f' =>
      cases m with
      | vobj cls dd attrs =>
          cases dv with
          | vdict data =>
              rw [fromdictF_vobj, fromdictF_vobj]
              simp only [Kw.follow, Kw.allow_pk]
              rw [h]
              rfl
          | vint n => rfl
          | vstr s => rfl
          | vnone => rfl
          | vlist xs => rfl
          | vilist xs => rfl
          | vobj cls2 dd2 attrs2 => rfl
      | vint n => rfl
      | vstr s => rfl
      | vnone => rfl
      | vlist xs => rfl
      | vilist xs => rfl
      | vdict d => rfl

/-- A class with a column `x` and relationships `ab` and `abc`, for the C5
theorems. -/
def C5cls : ModelClass :=
  ⟨[.column "x" [false], .relationship "ab", .relationship "abc"],
    .absent, .absent, .absent, .absent, .absent⟩

/-- C5: counterexample.  For the ordered sequence `['ab']` naming the
relationship `ab`, `asdict` with `follow=['ab']` does NOT behave like
`follow={'ab': {}}`: Python `dict(['ab'])` succeeds — a sequence whose
elements all have length 2 is parsed as key-value character pairs, here
`{'a': 'b'}` — so the call raises ValueError about the non-relationship key
`'a'`, while the mapping form succeeds.  The claimed shorthand equivalence
fails. -/
theorem C5_seq_map_differ :
    asdictF 2 (.vobj C5cls true [("x", .vint 1), ("ab", .vnone), ("abc", .vnone)])
        (Kw.mk none none none none (some (.fseq ["ab"])) none) =
      .error (followKeyError "a") ∧
    asdictF 2 (.vobj C5cls true [("x", .vint 1), ("ab", .vnone), ("abc", .vnone)])
        (Kw.mk none none none none (some (.fmap [("ab", .kwargs kwEmpty)])) none) =
      .ok [("x", .vint 1)] :=
  ⟨rfl, rfl⟩

/-- C5 (amended): the follow-spec shorthand equivalence holds for every
ordered sequence of names that is empty or contains at least one name whose
length is not exactly 2 — exactly the sequences on which Python
`dict(sequence)` raises ValueError, making the code fall back to
`dict.fromkeys(sequence, {})`.  A non-empty sequence whose names all have
length 2 is instead parsed by `dict()` as key-value character pairs (see the
counterexample). -/
theorem C5_seq_equiv_amended (f : Nat) (v m dv : PyVal) (names : List String)
    (e : Option (List String)) (eu epk apk : Option Bool)
    (inc : Option (List String))
    (h : names = [] ∨ ∃ n ∈ names, n.length ≠ 2) :
    asdictF f v (Kw.mk e eu epk apk (some (.fseq names)) inc) =
      asdictF f v (Kw.mk e eu epk apk
        (some (.fmap (names.map fun n => (n, FollowVal.kwargs kwEmpty)))) inc) ∧
    fromdictF f m dv (Kw.mk e eu epk apk (some (.fseq names)) inc) =
      fromdictF f m dv (Kw.mk e eu epk apk
        (some (.fmap (names.map fun n => (n, FollowVal.kwargs kwEmpty)))) inc) :=
  ⟨asdictF_follow_congr _ _ (normalizeFollow_fseq_eq names h) f v e eu epk apk inc,
   fromdictF_follow_congr _ _ (normalizeFollow_fseq_eq names h) f m dv e eu epk apk inc⟩

/-- Witness for the amended C5 at a concrete input: the three-letter name
`abc` (length not 2) makes the sequence and mapping forms agree. -/
theorem C5_seq_equiv_amended_witness :
    ((["abc"] : List String) = [] ∨ ∃ n ∈ (["abc"] : List String), n.length ≠ 2) ∧
    (asdictF 2 (.vobj C5cls true [("x", .vint 1), ("ab", .vnone), ("abc", .vnone)])
        (Kw.mk none none none none (some (.fseq ["abc"])) none) =
      asdictF 2 (.vobj C5cls true [("x", .vint 1), ("ab", .vnone), ("abc", .vnone)])
        (Kw.mk none none none none
          (some (.fmap (["abc"].map fun n => (n, FollowVal.kwargs kwEmpty)))) none) ∧
     fromdictF 2 (.vobj C5cls true [("x", .vint 1), ("ab", .vnone), ("abc", .vnone)])
        (.vdict [("x", .vint 3)])
        (Kw.mk none none none none (some (.fseq ["abc"])) none) =
      fromdictF 2 (.vobj C5cls true [("x", .vint 1), ("ab", .vnone), ("abc", .vnone)])
        (.vdict [("x", .vint 3)])
        (Kw.mk none none none none
          (some (.fmap (["abc"].map fun n => (n, FollowVal.kwargs kwEmpty)))) none)) :=
  ⟨Or.inr ⟨"abc", by decide, by decide⟩,
   C5_seq_equiv_amended 2 (.vobj C5cls true [("x", .vint 1), ("ab", .vnone), ("abc", .vnone)])
     (.vobj C5cls true [("x", .vint 1), ("ab", .vnone), ("abc", .vnone)])
     (.vdict [("x", .vint 3)]) ["abc"] none none none none none
     (Or.inr ⟨"abc", by decide, by decide⟩)⟩

/-! ### Claim C6 -/

/-- A class with a single column `x` and no relationships, for the C6
theorems. -/
def C6cls : ModelClass :=
  ⟨[.column "x" [false]], .absent, .absent, .absent, .absent, .absent⟩

/-- C6: counterexample.  `fromdict` called with the follow key `bad` that is
not a relationship of the class does NOT raise when `bad` is absent from
`data`: the follow loop (utils.py lines 197-203) tests `k not in data:
continue` before validating the key against the relationships, so the call
returns normally.  This contradicts the claim that every non-relationship
follow key makes `fromdict` raise a configuration error. -/
theorem C6_fromdict_bad_key_silent :
    fromdictF 1 (.vobj C6cls true [("x", .vint 0)]) (.vdict [])
        (Kw.mk none none none none (some (.fmap [("bad", .kwargs kwEmpty)])) none) =
      (.vobj C6cls true [("x", .vint 0)], none) := rfl

/-- C6 (amended): for a follow key `b` that is not among the class's
relationship fields, `asdict` raises the ValueError (ConfigurationError) and
returns no mapping; `fromdict` raises it only when `b` is also a key of
`data`, and because the simple-update loop runs to completion before the
follow loop, every data key has already been applied to the instance when the
error is raised (the error-state attributes are exactly the output of the
full simple-update loop); when `b` is absent from `data` the key is skipped
silently and the call succeeds. -/
theorem C6_bad_follow_key (f : Nat) (cls : ModelClass) (dd : Bool)
    (attrs : PyDict) (b : String) (fv : FollowVal)
    (rest : List (String × FollowVal)) (e : Option (List String))
    (eu epk apk : Option Bool) (inc : Option (List String))
    (dataIn dataOut : List (String × PyVal)) (dvB : PyVal)
    (attrs1 attrs1' : PyDict)
    (hb : b ∉ get_relation_keys cls)
    (hwf : ∀ k ∈ asdictKeys cls (Kw.mk e eu epk apk
        (some (.fmap ((b, fv) :: rest))) inc), (alistGet attrs k).isSome)
    (hIn : alistGet dataIn b = some dvB)
    (happlyIn : applyDataLoop
        (get_column_keys cls ++ get_synonym_keys cls ++
          effIncludeFromdict cls (Kw.mk e eu epk apk (some (.fmap [(b, fv)])) inc))
        (get_primary_key_properties cls) (resolvedAllowPk cls apk)
        attrs dataIn = (attrs1, none))
    (hOut : alistGet dataOut b = none)
    (happlyOut : applyDataLoop
        (get_column_keys cls ++ get_synonym_keys cls ++
          effIncludeFromdict cls (Kw.mk e eu epk apk (some (.fmap [(b, fv)])) inc))
        (get_primary_key_properties cls) (resolvedAllowPk cls apk)
        attrs dataOut = (attrs1', none)) :
    asdictF (f + 1) (.vobj cls dd attrs)
        (Kw.mk e eu epk apk (some (.fmap ((b, fv) :: rest))) inc) =
      .error (followKeyError b) ∧
    fromdictF (f + 1) (.vobj cls dd attrs) (.vdict dataIn)
        (Kw.mk e eu epk apk (some (.fmap [(b, fv)])) inc) =
      (.vobj cls dd attrs1, some (followKeyError b)) ∧
    fromdictF (f + 1) (.vobj cls dd attrs) (.vdict dataOut)
        (Kw.mk e eu epk apk (some (.fmap [(b, fv)])) inc) =
      (.vobj cls dd attrs1', none) := by
  refine ⟨?_, ?_, ?_⟩
  · rw [asdictF_vobj]
    obtain ⟨ps, hps⟩ := collectPairs_exists attrs _ hwf
    rw [hps]
    simp only [Kw.follow, normalizeFollow]
    obtain ⟨v', t', hd⟩ := dictOfPairs_cons_head b fv rest
    rw [hd]
    simp only [asdictFollowLoop]
    rw [if_pos hb]
  · rw [fromdictF_vobj]
    simp only [Kw.allow_pk, Kw.follow]
    rw [happlyIn]
    have hnf : normalizeFollow (some (.fmap [(b, fv)])) = [(b, fv)] := rfl
    rw [hnf]
    simp only [fromdictFollowLoop]
    rw [hIn]
    simp only [if_pos hb]
  · rw [fromdictF_vobj]
    simp only [Kw.allow_pk, Kw.follow]
    rw [happlyOut]
    have hnf : normalizeFollow (some (.fmap [(b, fv)])) = [(b, fv)] := rfl
    rw [hnf]
    simp only [fromdictFollowLoop]
    rw [hOut]

/-- Witness for the amended C6 at a concrete input: class with column `x`,
bad follow key `bad`, `dataIn = {'x': 7, 'bad': 1}` (raises after applying
`x`), `dataOut = {'x': 9}` (no raise, `x` applied). -/
theorem C6_bad_follow_key_witness :
    ("bad" ∉ get_relation_keys C6cls) ∧
    (∀ k ∈ asdictKeys C6cls (Kw.mk none none none none
        (some (.fmap [("bad", FollowVal.kwargs kwEmpty)])) none),
      (alistGet [("x", PyVal.vint 0)] k).isSome) ∧
    (asdictF 1 (.vobj C6cls true [("x", .vint 0)])
        (Kw.mk none none none none
          (some (.fmap [("bad", FollowVal.kwargs kwEmpty)])) none) =
      .error (followKeyError "bad") ∧
     fromdictF 1 (.vobj C6cls true [("x", .vint 0)])
        (.vdict [("x", .vint 7), ("bad", .vint 1)])
        (Kw.mk none none none none
          (some (.fmap [("bad", FollowVal.kwargs kwEmpty)])) none) =
      (.vobj C6cls true [("x", .vint 7)], some (followKeyError "bad")) ∧
     fromdictF 1 (.vobj C6cls true [("x", .vint 0)])
        (.vdict [("x", .vint 9)])
        (Kw.mk none none none none
          (some (.fmap [("bad", FollowVal.kwargs kwEmpty)])) none) =
      (.vobj C6cls true [("x", .vint 9)], none)) :=
  ⟨by decide, by decide,
   C6_bad_follow_key 0 C6cls true [("x", .vint 0)] "bad"
     (FollowVal.kwargs kwEmpty) [] none none none none none
     [("x", .vint 7), ("bad", .vint 1)] [("x", .vint 9)] (.vint 1)
     [("x", .vint 7)] [("x", .vint 9)]
     (by decide) (by decide) rfl rfl rfl rfl⟩

/-! ### Claim C7 -/

theorem asdictChildren_forall2 (recur : PyVal → Kw → Except PyErr PyDict)
    (args : Kw) (children : List PyVal) (ds : List PyDict)
    (hdict : ∀ c ∈ children, hasattrAsdict c = true)
    (hds : List.Forall₂ (fun c d => recur c args = .ok d) children ds) :
    asdictChildren recur (.kwargs args) children = .ok (ds.map PyVal.vdict) := by
  induction hds with
  | nil => rfl
  | @cons c d cs ds' hcd _ ih =>
      have hc : hasattrAsdict c = true := hdict c (by simp)
      have hrest : asdictChildren recur (.kwargs args) cs = .ok (ds'.map PyVal.vdict) :=
        ih fun c' hc' => hdict c' (by simp [hc'])
      simp only [asdictChildren, asdictChild, hc, if_pos, kwToArgs]
      rw [hcd, hrest]
      rfl

/-- C7: for an instance whose relationship field `k` (named in `follow` with
bundle `args`) holds an ordered collection of dictable instances, `asdict`
stores under `k` an ordered sequence whose i-th element is the i-th child's
own `asdict` result under the bundle's options (`List.Forall₂` states exactly
this positional correspondence), preserving the collection's original
order. -/
theorem C7_follow_children (f : Nat) (cls : ModelClass) (dd : Bool)
    (attrs : PyDict) (k : String) (args : Kw) (children : List PyVal)
    (ds : List PyDict) (e : Option (List String)) (eu epk apk : Option Bool)
    (inc : Option (List String))
    (hk : k ∈ get_relation_keys cls)
    (hrel : alistGet attrs k = some (.vilist children))
    (hdict : ∀ c ∈ children, hasattrAsdict c = true)
    (hds : List.Forall₂ (fun c d => asdictF f c args = .ok d) children ds)
    (hwf : ∀ kk ∈ asdictKeys cls (Kw.mk e eu epk apk
        (some (.fmap [(k, FollowVal.kwargs args)])) inc),
      (alistGet attrs kk).isSome) :
    ∃ d', asdictF (f + 1) (.vobj cls dd attrs)
        (Kw.mk e eu epk apk (some (.fmap [(k, FollowVal.kwargs args)])) inc) =
          .ok d' ∧
      alistGet d' k = some (.vlist (ds.map PyVal.vdict)) := by
  rw [asdictF_vobj]
  obtain ⟨ps, hps⟩ := collectPairs_exists attrs _ hwf
  rw [hps]
  simp only [Kw.follow]
  have hnf : normalizeFollow (some (.fmap [(k, FollowVal.kwargs args)])) =
      [(k, FollowVal.kwargs args)] := rfl
  rw [hnf]
  simp only [asdictFollowLoop]
  rw [if_neg (not_not_intro hk)]
  simp only [hrel, hasattrAsdict, Bool.false_eq_true, if_false]
  rw [asdictChildren_forall2 _ args children ds hdict hds]
  simp only [asdictFollowLoop]
  exact ⟨_, rfl, alistGet_alistSet_self _ k _⟩

/-- The child class (one column `c`) for the C7 witness. -/
def C7childCls : ModelClass :=
  ⟨[.column "c" [false]], .absent, .absent, .absent, .absent, .absent⟩

/-- The parent class (column `x`, relationship `children`) for the C7
witness. -/
def C7parentCls : ModelClass :=
  ⟨[.column "x" [false], .relationship "children"],
    .absent, .absent, .absent, .absent, .absent⟩

/-- Witness for C7 at a concrete input: a parent with two dictable children
serializes `children` to the two child dicts in order. -/
theorem C7_follow_children_witness :
    ("children" ∈ get_relation_keys C7parentCls) ∧
    (∀ c ∈ [PyVal.vobj C7childCls true [("c", PyVal.vint 10)],
            PyVal.vobj C7childCls true [("c", PyVal.vint 20)]],
      hasattrAsdict c = true) ∧
    List.Forall₂ (fun c d => asdictF 1 c kwEmpty = .ok d)
      [PyVal.vobj C7childCls true [("c", PyVal.vint 10)],
       PyVal.vobj C7childCls true [("c", PyVal.vint 20)]]
      [[("c", PyVal.vint 10)], [("c", PyVal.vint 20)]] ∧
    (∃ d', asdictF 2 (.vobj C7parentCls true
        [("x", .vint 1),
         ("children", .vilist [PyVal.vobj C7childCls true [("c", PyVal.vint 10)],
                               PyVal.vobj C7childCls true [("c", PyVal.vint 20)]])])
        (Kw.mk none none none none
          (some (.fmap [("children", FollowVal.kwargs kwEmpty)])) none) = .ok d' ∧
      alistGet d' "children" =
        some (.vlist [PyVal.vdict [("c", PyVal.vint 10)],
                      PyVal.vdict [("c", PyVal.vint 20)]])) :=
  ⟨by decide, by decide,
   List.Forall₂.cons rfl (List.Forall₂.cons rfl List.Forall₂.nil),
   C7_follow_children 1 C7parentCls true
     [("x", .vint 1),
      ("children", .vilist [PyVal.vobj C7childCls true [("c", PyVal.vint 10)],
                            PyVal.vobj C7childCls true [("c", PyVal.vint 20)]])]
     "children" kwEmpty
     [PyVal.vobj C7childCls true [("c", PyVal.vint 10)],
      PyVal.vobj C7childCls true [("c", PyVal.vint 20)]]
     [[("c", PyVal.vint 10)], [("c", PyVal.vint 20)]]
     none none none none none
     (by decide) rfl (by decide)
     (List.Forall₂.cons rfl (List.Forall₂.cons rfl List.Forall₂.nil))
     (by decide)⟩

/-! ### Claim C8 -/

theorem foldl_alistSet_cons_not_mem {α : Type} (ps : List (String × α))
    (k : String) (v : α) (h : k ∉ ps.map Prod.fst) :
    ∀ t, ps.foldl (fun d q => alistSet d q.1 q.2) ((k, v) :: t) =
      (k, v) :: ps.foldl (fun d q => alistSet d q.1 q.2) t := by
  induction ps with
  | nil => intro t; rfl
  | cons q rest ih =>
      intro t
      have hq : ¬(k = q.1) := fun hh => h (by simp [hh])
      have hrest : k ∉ rest.map Prod.fst := fun hh => h (by simp [hh])
      simp only [List.foldl_cons, alistSet, if_neg hq]
      exact ih hrest (alistSet t q.1 q.2)

theorem dictOfPairs_cons_not_mem {α : Type} (ps : List (String × α))
    (k : String) (v : α) (h : k ∉ ps.map Prod.fst) :
    dictOfPairs ((k, v) :: ps) = (k, v) :: dictOfPairs ps := by
  simp only [dictOfPairs, List.foldl_cons, alistSet]
  exact foldl_alistSet_cons_not_mem ps k v h []

/-- A class with a column `x` and a relationship `r`, for the C8 theorems. -/
def C8cls : ModelClass :=
  ⟨[.column "x" [false], .relationship "r"], .absent, .absent, .absent, .absent, .absent⟩

/-- C8: counterexample.  For a follow key `r` naming a relationship whose
value is singular and non-dictable (here the scalar 99), `asdict` does NOT
pass the value through into the result: the follow loop has no branch for
such a value (utils.py lines 112-122 handle only dictable values and
`InstrumentedList`s), and relationship names are not part of the base field
set, so `r` is simply absent from the returned mapping.  No error is raised,
but the claim that the value appears unchanged under the field name is
false. -/
theorem C8_singular_not_passed_through :
    asdictF 2 (.vobj C8cls true [("x", .vint 7), ("r", .vint 99)])
        (Kw.mk none none none none (some (.fmap [("r", .kwargs kwEmpty)])) none) =
      .ok [("x", .vint 7)] ∧
    alistGet [("x", PyVal.vint 7)] "r" = none :=
  ⟨rfl, rfl⟩

/-- C8 (amended): a follow key naming a relationship whose value is singular
and non-dictable is skipped silently: the call behaves exactly as if that
follow entry were not given — no error is raised and the output mapping holds
an entry at the field name only if the base field selection produced one. -/
theorem C8_singular_skipped_amended (f : Nat) (cls : ModelClass) (dd : Bool)
    (attrs : PyDict) (k : String) (fv : FollowVal)
    (rest : List (String × FollowVal)) (e : Option (List String))
    (eu epk apk : Option Bool) (inc : Option (List String)) (rel : PyVal)
    (hk : k ∈ get_relation_keys cls)
    (hrel : alistGet attrs k = some rel)
    (hnd : hasattrAsdict rel = false)
    (hnl : ∀ xs, rel ≠ PyVal.vilist xs)
    (hkr : k ∉ rest.map Prod.fst) :
    asdictF (f + 1) (.vobj cls dd attrs)
        (Kw.mk e eu epk apk (some (.fmap ((k, fv) :: rest))) inc) =
      asdictF (f + 1) (.vobj cls dd attrs)
        (Kw.mk e eu epk apk (some (.fmap rest)) inc) := by
  have hkeys : asdictKeys cls (Kw.mk e eu epk apk (some (.fmap rest)) inc) =
      asdictKeys cls (Kw.mk e eu epk apk (some (.fmap ((k, fv) :: rest))) inc) := rfl
  have hnorm : normalizeFollow (some (FollowArg.fmap ((k, fv) :: rest))) =
      (k, fv) :: normalizeFollow (some (FollowArg.fmap rest)) := by
    simp only [normalizeFollow]
    exact dictOfPairs_cons_not_mem rest k fv hkr
  rw [asdictF_vobj, asdictF_vobj]
  simp only [Kw.follow]
  rw [hkeys]
  rcases hcp : collectPairs attrs
      (asdictKeys cls (Kw.mk e eu epk apk (some (.fmap ((k, fv) :: rest))) inc))
      with e' | ps
  · rfl
  · rw [hnorm]
    simp only [asdictFollowLoop]
    rw [if_neg (not_not_intro hk)]
    cases rel with
    | vilist xs => exact absurd rfl (hnl xs)
    | vint n => simp [hrel, hasattrAsdict]
    | vstr s => simp [hrel, hasattrAsdict]
    | vnone => simp [hrel, hasattrAsdict]
    | vlist xs => simp [hrel, hasattrAsdict]
    | vdict d => simp [hrel, hasattrAsdict]
    | vobj cls2 dict2 attrs2 =>
        have hdd : dict2 = false := by simpa [hasattrAsdict] using hnd
        subst hdd
        simp [hrel, hasattrAsdict]

/-- Witness for the amended C8 at a concrete input: following the
non-dictable singular relation `r` yields the same mapping as not following
it. -/
theorem C8_singular_skipped_amended_witness :
    ("r" ∈ get_relation_keys C8cls) ∧
    alistGet [("x", PyVal.vint 7), ("r", PyVal.vint 99)] "r" = some (PyVal.vint 99) ∧
    hasattrAsdict (PyVal.vint 99) = false ∧
    asdictF 2 (.vobj C8cls true [("x", .vint 7), ("r", .vint 99)])
        (Kw.mk none none none none
          (some (.fmap [("r", FollowVal.kwargs kwEmpty)])) none) =
      asdictF 2 (.vobj C8cls true [("x", .vint 7), ("r", .vint 99)])
        (Kw.mk none none none none (some (.fmap [])) none) :=
  ⟨by decide, rfl, rfl,
   C8_singular_skipped_amended 1 C8cls true
     [("x", .vint 7), ("r", .vint 99)] "r" (FollowVal.kwargs kwEmpty) []
     none none none none none (.vint 99)
     (by decide) rfl rfl (fun xs h => PyVal.noConfusion h) (by decide)⟩

/-! ### Claim C9 -/

/-- C9: behavior of `fromdict`'s follow loop (utils.py lines 197-206), in
three parts plus the collection fact.  (i) A follow key absent from `data` is
skipped before any validation: the call behaves as if the entry were not
given.  (ii) When the follow key is in `data` and names a relationship whose
current value (after the simple updates) is dictable, `fromdict` recurses by
calling that value's `fromdict` with `data[key]` and the bundle's options,
and the updated relation replaces the attribute.  (iii) When the current
relation value is not dictable the follow step leaves the instance exactly as
the simple updates left it — nothing is traversed.  (iv) An
`InstrumentedList` is never dictable, so by (iii) relation values holding
collections are never traversed for update. -/
theorem C9_fromdict_follow (f : Nat) (cls : ModelClass) (dd : Bool)
    (k : String) (fv : FollowVal) (args : Kw)
    (e : Option (List String)) (eu epk apk : Option Bool)
    (inc : Option (List String))
    (attrsA : PyDict) (dataA : List (String × PyVal))
    (rest : List (String × FollowVal))
    (attrsB : PyDict) (dataB : List (String × PyVal)) (dv : PyVal)
    (attrs1 : PyDict) (rel rel' : PyVal)
    (attrsC : PyDict) (dataC : List (String × PyVal)) (dvC : PyVal)
    (attrs1' : PyDict) (relN : PyVal)
    (hA1 : alistGet dataA k = none)
    (hA2 : k ∉ rest.map Prod.fst)
    (hB1 : applyDataLoop
        (get_column_keys cls ++ get_synonym_keys cls ++ effIncludeFromdict cls
          (Kw.mk e eu epk apk (some (.fmap [(k, FollowVal.kwargs args)])) inc))
        (get_primary_key_properties cls) (resolvedAllowPk cls apk)
        attrsB dataB = (attrs1, none))
    (hB2 : alistGet dataB k = some dv)
    (hB3 : k ∈ get_relation_keys cls)
    (hB4 : alistGet attrs1 k = some rel)
    (hB5 : hasattrAsdict rel = true)
    (hB6 : fromdictF f rel dv args = (rel', none))
    (hC1 : applyDataLoop
        (get_column_keys cls ++ get_synonym_keys cls ++ effIncludeFromdict cls
          (Kw.mk e eu epk apk (some (.fmap [(k, FollowVal.kwargs args)])) inc))
        (get_primary_key_properties cls) (resolvedAllowPk cls apk)
        attrsC dataC = (attrs1', none))
    (hC2 : alistGet dataC k = some dvC)
    (hC4 : alistGet attrs1' k = some relN)
    (hC5 : hasattrAsdict relN = false) :
    (fromdictF (f + 1) (.vobj cls dd attrsA) (.vdict dataA)
        (Kw.mk e eu epk apk (some (.fmap ((k, fv) :: rest))) inc) =
      fromdictF (f + 1) (.vobj cls dd attrsA) (.vdict dataA)
        (Kw.mk e eu epk apk (some (.fmap rest)) inc)) ∧
    (fromdictF (f + 1) (.vobj cls dd attrsB) (.vdict dataB)
        (Kw.mk e eu epk apk (some (.fmap [(k, FollowVal.kwargs args)])) inc) =
      (.vobj cls dd (alistSet attrs1 k rel'), none)) ∧
    (fromdictF (f + 1) (.vobj cls dd attrsC) (.vdict dataC)
        (Kw.mk e eu epk apk (some (.fmap [(k, FollowVal.kwargs args)])) inc) =
      (.vobj cls dd attrs1', none)) ∧
    (∀ xs, hasattrAsdict (PyVal.vilist xs) = false) := by
  refine ⟨?_, ?_, ?_, fun xs => rfl⟩
  · have hnorm : normalizeFollow (some (FollowArg.fmap ((k, fv) :: rest))) =
        (k, fv) :: normalizeFollow (some (FollowArg.fmap rest)) := by
      simp only [normalizeFollow]
      exact dictOfPairs_cons_not_mem rest k fv hA2
    have hincEq : effIncludeFromdict cls
        (Kw.mk e eu epk apk (some (.fmap rest)) inc) =
      effIncludeFromdict cls
        (Kw.mk e eu epk apk (some (.fmap ((k, fv) :: rest))) inc) := rfl
    rw [fromdictF_vobj, fromdictF_vobj]
    simp only [Kw.allow_pk, Kw.follow]
    rw [hincEq]
    rcases happ : applyDataLoop
        (get_column_keys cls ++ get_synonym_keys cls ++ effIncludeFromdict cls
          (Kw.mk e eu epk apk (some (.fmap ((k, fv) :: rest))) inc))
        (get_primary_key_properties cls) (resolvedAllowPk cls apk)
        attrsA dataA with ⟨attrs0, err⟩
    cases err with
    | some e0 => rfl
    | none =>
        rw [hnorm]
        simp only [fromdictFollowLoop]
        rw [hA1]
  · rw [fromdictF_vobj]
    simp only [Kw.allow_pk, Kw.follow]
    rw [hB1]
    have hnf : normalizeFollow (some (FollowArg.fmap [(k, FollowVal.kwargs args)])) =
        [(k, FollowVal.kwargs args)] := rfl
    rw [hnf]
    simp only [fromdictFollowLoop, hB2]
    rw [if_neg (not_not_intro hB3)]
    simp only [hB4, hB5, if_true, kwToArgs, hB6]
  · rw [fromdictF_vobj]
    simp only [Kw.allow_pk, Kw.follow]
    rw [hC1]
    have hnf : normalizeFollow (some (FollowArg.fmap [(k, FollowVal.kwargs args)])) =
        [(k, FollowVal.kwargs args)] := rfl
    rw [hnf]
    simp only [fromdictFollowLoop, hC2]
    rw [if_neg (not_not_intro hB3)]
    simp only [hC4, hC5, Bool.false_eq_true, if_false]

/-- The child class (one column `c`) for the C9 witness. -/
def C9childCls : ModelClass :=
  ⟨[.column "c" [false]], .absent, .absent, .absent, .absent, .absent⟩

/-- The parent class (column `x`, relationship `r`) for the C9 witness. -/
def C9cls : ModelClass :=
  ⟨[.column "x" [false], .relationship "r"], .absent, .absent, .absent, .absent, .absent⟩

/-- Witness for C9 at concrete inputs: a follow key absent from `data` is
skipped; a dictable relation is updated in place through recursion
(`c` becomes 42); a relation holding an `InstrumentedList` is untouched. -/
theorem C9_fromdict_follow_witness :
    ("r" ∈ get_relation_keys C9cls) ∧
    alistGet [("x", PyVal.vint 5)] "r" = none ∧
    hasattrAsdict (PyVal.vobj C9childCls true [("c", PyVal.vint 10)]) = true ∧
    hasattrAsdict (PyVal.vilist []) = false ∧
    ((fromdictF 2 (.vobj C9cls true [("x", .vint 1), ("r", .vnone)])
        (.vdict [("x", .vint 5)])
        (Kw.mk none none none none
          (some (.fmap [("r", FollowVal.kwargs kwEmpty)])) none) =
      fromdictF 2 (.vobj C9cls true [("x", .vint 1), ("r", .vnone)])
        (.vdict [("x", .vint 5)])
        (Kw.mk none none none none (some (.fmap [])) none)) ∧
     (fromdictF 2 (.vobj C9cls true
        [("x", .vint 1), ("r", PyVal.vobj C9childCls true [("c", PyVal.vint 10)])])
        (.vdict [("r", .vdict [("c", .vint 42)])])
        (Kw.mk none none none none
          (some (.fmap [("r", FollowVal.kwargs kwEmpty)])) none) =
      (.vobj C9cls true
        (alistSet [("x", PyVal.vint 1),
                   ("r", PyVal.vobj C9childCls true [("c", PyVal.vint 10)])] "r"
          (PyVal.vobj C9childCls true [("c", PyVal.vint 42)])), none)) ∧
     (fromdictF 2 (.vobj C9cls true [("x", .vint 1), ("r", .vilist [])])
        (.vdict [("r", .vdict [])])
        (Kw.mk none none none none
          (some (.fmap [("r", FollowVal.kwargs kwEmpty)])) none) =
      (.vobj C9cls true [("x", .vint 1), ("r", .vilist [])], none)) ∧
     (∀ xs, hasattrAsdict (PyVal.vilist xs) = false)) :=
  ⟨by decide, rfl, rfl, rfl,
   C9_fromdict_follow 1 C9cls true "r" (FollowVal.kwargs kwEmpty) kwEmpty
     none none none none none
     [("x", .vint 1), ("r", .vnone)] [("x", .vint 5)] []
     [("x", .vint 1), ("r", PyVal.vobj C9childCls true [("c", PyVal.vint 10)])]
     [("r", .vdict [("c", .vint 42)])] (.vdict [("c", .vint 42)])
     [("x", .vint 1), ("r", PyVal.vobj C9childCls true [("c", PyVal.vint 10)])]
     (PyVal.vobj C9childCls true [("c", PyVal.vint 10)])
     (PyVal.vobj C9childCls true [("c", PyVal.vint 42)])
     [("x", .vint 1), ("r", .vilist [])] [("r", .vdict [])] (.vdict [])
     [("x", .vint 1), ("r", .vilist [])] (.vilist [])
     rfl (by decide) rfl rfl (by decide) rfl rfl rfl rfl rfl rfl rfl⟩

end Dictalchemy
